import Mathlib

/-!
Verification of the `ratelimit` sliding-window call rate limiter
(`src/ratelimit/ratelimit.py`), shallowly embedded in Lean 4.

Times (`datetime.now()` values and `per_seconds`) are modelled as rationals;
the wrapped Python callable is represented by its name and declared parameter
list (all the limiter ever inspects), and the call-history dictionary
`self._calls : Dict[Any, List[datetime]]` is modelled as a function from
optional session keys to optional timestamp lists (`none` meaning the key is
absent from the dictionary).  The two `datetime.now()` reads inside
`__call__` (one in `_update_calls`, one at the append) are passed in
explicitly as `now1` and `now2`.
-/

/-- Timestamps and durations, modelling Python floats / `datetime` values. -/
abbrev Time := ℚ

/-- Module-level constant `SECOND = 1`. -/
def SECOND : ℕ := 1

/-- Module-level constant `MINUTE = 60 * SECOND`. -/
def MINUTE : ℕ := 60 * SECOND

/-- Module-level constant `HOUR = 60 * MINUTE`. -/
def HOUR : ℕ := 60 * MINUTE

/-- Module-level constant `DAY = 24 * HOUR`. -/
def DAY : ℕ := 24 * HOUR

/-- Module-level constant `WEEK = 7 * DAY`. -/
def WEEK : ℕ := 7 * DAY

/-- Module-level constant `MONTH = 30 * DAY`. -/
def MONTH : ℕ := 30 * DAY

/-- Module-level constant `YEAR = 365 * DAY`. -/
def YEAR : ℕ := 365 * DAY

/-- The payload of the `RateLimitException` raised in `__call__`: its message
interpolates `self.f.__name__`, `self.max_calls` and `self.per_seconds`. -/
structure RateLimitException where
  fname : String
  max_calls : ℕ
  per_seconds : ℚ
deriving DecidableEq

/-- The payload of the `ValueError` raised in `__init__` (the spec's
`ConfigurationError`): its message names the missing session parameter. -/
structure ConfigurationError where
  param : String
deriving DecidableEq

/-- The state of a `RateLimitedCallable` wrapper.  `V` is the type of argument
values of the wrapped callable (Python `Any`); session keys are `Option V`,
with `none` the sentinel "no session" key (`session = None`). -/
structure RateLimitedCallable (V : Type) where
  /-- `self.f.__name__`. -/
  fname : String
  /-- `list(inspect.signature(self.f).parameters.keys())`: the wrapped
  callable's declared parameter names, in order. -/
  params : List String
  /-- `self.max_calls`. -/
  max_calls : ℕ
  /-- `self.per_seconds`. -/
  per_seconds : ℚ
  /-- `self.session_arg`: the captured (position, name) pair, or `none`. -/
  session_arg : Option (ℕ × String)
  /-- `self._calls`: `none` models a key absent from the dictionary. -/
  calls : Option V → Option (List Time)

/-- A limiter state whose call-history dictionary is empty, as right after
`__init__` sets `self._calls = {}`. -/
def RateLimitedCallable.fresh (V : Type) (fname : String) (params : List String)
    (max_calls : ℕ) (per_seconds : ℚ) (session_arg : Option (ℕ × String)) :
    RateLimitedCallable V :=
  ⟨fname, params, max_calls, per_seconds, session_arg, fun _ => none⟩

/-- `RateLimitedCallable.__init__`: validates the optional session parameter
name against the wrapped callable's signature, raising `ValueError` if it is
absent and otherwise capturing `(index, name)` where
`index = list(signature.parameters.keys()).index(session_arg)`. -/
def RateLimitedCallable.mk? (V : Type) (fname : String) (params : List String)
    (max_calls : ℕ) (per_seconds : ℚ) (session_arg : Option String) :
    Except ConfigurationError (RateLimitedCallable V) :=
  match session_arg with
  | none => .ok (RateLimitedCallable.fresh V fname params max_calls per_seconds none)
  | some name =>
      if name ∈ params then
        .ok (RateLimitedCallable.fresh V fname params max_calls per_seconds
          (some (params.indexOf name, name)))
      else
        .error ⟨name⟩

/-- The list comprehension in `_update_calls`:
`[t for t in self._calls[session] if (now - t).total_seconds() < self.per_seconds]`. -/
def prune (now : Time) (per_seconds : ℚ) (ts : List Time) : List Time :=
  ts.filter (fun t => now - t < per_seconds)

/-- The session-key extraction at the top of `__call__`: keyword arguments are
checked by name first, then positional arguments by captured index
(`len(args) > index`), else the sentinel `None` session. -/
def extractSession {V : Type} (session_arg : Option (ℕ × String))
    (args : List V) (kwargs : List (String × V)) : Option V :=
  match session_arg with
  | none => none
  | some (index, name) =>
      match kwargs.lookup name with
      | some v => some v
      | none =>
          if h : index < args.length then some (args.get ⟨index, h⟩) else none

/-- The session key `__call__` uses for a given argument list. -/
def sessionOf {V : Type} (st : RateLimitedCallable V)
    (args : List V) (kwargs : List (String × V)) : Option V :=
  extractSession st.session_arg args kwargs

/-- The session's timestamp list right after `_update_calls(session)` ran at
time `now1`: the missing key is first inserted as `[]`, then filtered. -/
def prunedSession {V : Type} (st : RateLimitedCallable V)
    (args : List V) (kwargs : List (String × V)) (now1 : Time) : List Time :=
  prune now1 st.per_seconds ((st.calls (sessionOf st args kwargs)).getD [])

/-- The result of one invocation of the wrapper: either the call was admitted
(the wrapped callable was invoked) or `RateLimitException` was raised.  Both
carry the limiter state as left behind by the invocation. -/
inductive CallOutcome (V : Type) where
  | ok (st : RateLimitedCallable V)
  | rateLimited (e : RateLimitException) (st : RateLimitedCallable V)

/-- The limiter state after the invocation, whichever way it ended. -/
def CallOutcome.state {V : Type} : CallOutcome V → RateLimitedCallable V
  | .ok st => st
  | .rateLimited _ st => st

/-- Whether the wrapped callable was invoked (`self.f(*args, **kwargs)` runs
only on the admitted branch). -/
def CallOutcome.invokedWrapped {V : Type} : CallOutcome V → Bool
  | .ok _ => true
  | .rateLimited _ _ => false

/-- Whether the invocation raised `RateLimitException`. -/
def CallOutcome.isRateLimited {V : Type} : CallOutcome V → Bool
  | .ok _ => false
  | .rateLimited _ _ => true

/-- `RateLimitedCallable.__call__`: extract the session key, run
`_update_calls` (insert-if-missing then prune, with `datetime.now()` read as
`now1`), then either raise `RateLimitException` when the pruned length equals
`max_calls`, or append `datetime.now()` (read as `now2`) and invoke the
wrapped callable. -/
def RateLimitedCallable.call {V : Type} [DecidableEq V] (st : RateLimitedCallable V)
    (args : List V) (kwargs : List (String × V)) (now1 now2 : Time) : CallOutcome V :=
  let session := extractSession st.session_arg args kwargs
  let pruned := prune now1 st.per_seconds ((st.calls session).getD [])
  if pruned.length = st.max_calls then
    .rateLimited ⟨st.fname, st.max_calls, st.per_seconds⟩
      { st with calls := fun k => if k = session then some pruned else st.calls k }
  else
    .ok { st with calls := fun k => if k = session then some (pruned ++ [now2]) else st.calls k }

/-- `n` invocations in rapid succession (every `datetime.now()` read returns
the same `t`), all with the same arguments: `some` of the final state when
every call is admitted, `none` as soon as one raises. -/
def repeatCall {V : Type} [DecidableEq V] (st : RateLimitedCallable V)
    (args : List V) (kwargs : List (String × V)) (t : Time) : ℕ → Option (RateLimitedCallable V)
  | 0 => some st
  | n + 1 =>
      match st.call args kwargs t t with
      | .ok st' => repeatCall st' args kwargs t n
      | .rateLimited _ _ => none

/-- The limiter states reachable from `start` by any sequence of invocations
(arbitrary arguments and clock readings). -/
inductive Reach {V : Type} [DecidableEq V] (start : RateLimitedCallable V) :
    RateLimitedCallable V → Prop where
  | refl : Reach start start
  | step {st : RateLimitedCallable V} (args : List V) (kwargs : List (String × V))
      (now1 now2 : Time) : Reach start st →
      Reach start ((st.call args kwargs now1 now2).state)

/-- Membership in the pruned list, unfolded. -/
lemma mem_prune_iff (now per : ℚ) (ts : List Time) (t : Time) :
    t ∈ prune now per ts ↔ t ∈ ts ∧ now - t < per := by
  simp [prune, List.mem_filter]

/-- An invocation never changes the configuration fields of the limiter,
only the call-history dictionary. -/
lemma call_state_config {V : Type} [DecidableEq V] (st : RateLimitedCallable V)
    (args : List V) (kwargs : List (String × V)) (now1 now2 : Time) :
    ((st.call args kwargs now1 now2).state).fname = st.fname ∧
    ((st.call args kwargs now1 now2).state).params = st.params ∧
    ((st.call args kwargs now1 now2).state).max_calls = st.max_calls ∧
    ((st.call args kwargs now1 now2).state).per_seconds = st.per_seconds ∧
    ((st.call args kwargs now1 now2).state).session_arg = st.session_arg := by
  simp only [RateLimitedCallable.call]
  split <;> simp [CallOutcome.state]

/-- An invocation leaves every dictionary entry other than its own session
key untouched. -/
lemma call_state_calls_ne {V : Type} [DecidableEq V] (st : RateLimitedCallable V)
    (args : List V) (kwargs : List (String × V)) (now1 now2 : Time) (k : Option V)
    (hne : k ≠ extractSession st.session_arg args kwargs) :
    ((st.call args kwargs now1 now2).state).calls k = st.calls k := by
  simp only [RateLimitedCallable.call]
  split <;> simp [CallOutcome.state, hne]

/-- C9: the exported time-unit constants are the exact integer second counts
SECOND = 1, MINUTE = 60, HOUR = 3600, DAY = 86400, WEEK = 604800,
MONTH = 2592000 and YEAR = 31536000. -/
theorem time_constant_values :
    SECOND = 1 ∧ MINUTE = 60 ∧ HOUR = 3600 ∧ DAY = 86400 ∧
    WEEK = 604800 ∧ MONTH = 2592000 ∧ YEAR = 31536000 :=
  ⟨rfl, rfl, rfl, rfl, rfl, rfl, rfl⟩

/-- C3: pruning retains a stored timestamp exactly when its age `now - t` is
strictly less than `per_seconds`; a timestamp exactly at (or beyond) the
window boundary is dropped, and the admission decision counts only the
surviving (pruned) timestamps. -/
theorem prune_strict_boundary (V : Type) [DecidableEq V] (st : RateLimitedCallable V)
    (args : List V) (kwargs : List (String × V)) (now1 now2 : Time)
    (ts : List Time) (tstamp : Time) (now per : ℚ) :
    (tstamp ∈ prune now per ts ↔ tstamp ∈ ts ∧ now - tstamp < per) ∧
    ((st.call args kwargs now1 now2).isRateLimited = true ↔
      (prunedSession st args kwargs now1).length = st.max_calls) := by
  constructor
  · simp [prune, List.mem_filter]
  · simp only [RateLimitedCallable.call, prunedSession, sessionOf]
    by_cases hc : (prune now1 st.per_seconds
        ((st.calls (extractSession st.session_arg args kwargs)).getD [])).length = st.max_calls
    · rw [if_pos hc]
      simp [CallOutcome.isRateLimited, hc]
    · rw [if_neg hc]
      simp [CallOutcome.isRateLimited, hc]

/-- C2: when the pruned session sequence already has `max_calls` entries, the
invocation raises `RateLimitException` with a payload identifying the wrapped
callable, the configured `max_calls` and the window duration; the session's
sequence stays the pruned list (no timestamp is appended) and the wrapped
callable is not invoked. -/
theorem reject_at_capacity (V : Type) [DecidableEq V] (st : RateLimitedCallable V)
    (args : List V) (kwargs : List (String × V)) (now1 now2 : Time)
    (h : (prunedSession st args kwargs now1).length = st.max_calls) :
    st.call args kwargs now1 now2 =
      .rateLimited ⟨st.fname, st.max_calls, st.per_seconds⟩
        { st with calls := fun k =>
            if k = sessionOf st args kwargs then some (prunedSession st args kwargs now1)
            else st.calls k } ∧
    (st.call args kwargs now1 now2).invokedWrapped = false := by
  have e : st.call args kwargs now1 now2 =
      .rateLimited ⟨st.fname, st.max_calls, st.per_seconds⟩
        { st with calls := fun k =>
            if k = sessionOf st args kwargs then some (prunedSession st args kwargs now1)
            else st.calls k } := by
    simp only [prunedSession, sessionOf] at h ⊢
    simp only [RateLimitedCallable.call]
    rw [if_pos h]
  exact ⟨e, by rw [e]; rfl⟩

/-- A saturated one-session limiter used to witness `reject_at_capacity`:
one stored timestamp, `max_calls = 1`. -/
def L2 : RateLimitedCallable ℕ :=
  ⟨"g", [], 1, 1, none, fun k => if k = none then some [0] else none⟩

/-- Witness for C2 at a concrete saturated limiter. -/
theorem reject_at_capacity_witness :
    (prunedSession L2 [] [] 0).length = L2.max_calls ∧
    (L2.call [] [] 0 0 =
      .rateLimited ⟨L2.fname, L2.max_calls, L2.per_seconds⟩
        { L2 with calls := fun k =>
            if k = sessionOf L2 [] [] then some (prunedSession L2 [] [] 0)
            else L2.calls k } ∧
    (L2.call [] [] 0 0).invokedWrapped = false) := by
  have h : (prunedSession L2 [] [] 0).length = L2.max_calls := by
    have h0 : prunedSession L2 [] [] 0 = [0] := by
      simp [prunedSession, prune, sessionOf, extractSession, L2]
    rw [h0]
    rfl
  exact ⟨h, reject_at_capacity ℕ L2 [] [] 0 0 h⟩

/-- C5: constructing the wrapper with a session parameter name absent from the
wrapped callable's declared parameters fails immediately with the
configuration error naming that parameter; when the name is present,
construction succeeds and captures the `(position, name)` pair.  A call can
only end admitted or rate-limited, so the configuration error is never raised
at call time. -/
theorem construction_validation (V : Type) [DecidableEq V] (fname : String)
    (params : List String) (max_calls : ℕ) (per_seconds : ℚ) (name : String) :
    (name ∉ params →
      RateLimitedCallable.mk? V fname params max_calls per_seconds (some name) =
        .error ⟨name⟩) ∧
    (name ∈ params →
      RateLimitedCallable.mk? V fname params max_calls per_seconds (some name) =
        .ok (RateLimitedCallable.fresh V fname params max_calls per_seconds
          (some (params.indexOf name, name)))) ∧
    (∀ (st : RateLimitedCallable V) (args : List V) (kwargs : List (String × V))
      (now1 now2 : Time),
      (st.call args kwargs now1 now2).invokedWrapped = true ∨
      (st.call args kwargs now1 now2).isRateLimited = true) := by
  refine ⟨?_, ?_, ?_⟩
  · intro h
    simp [RateLimitedCallable.mk?, h]
  · intro h
    simp [RateLimitedCallable.mk?, h]
  · intro st args kwargs now1 now2
    simp only [RateLimitedCallable.call]
    by_cases hc : (prune now1 st.per_seconds
        ((st.calls (extractSession st.session_arg args kwargs)).getD [])).length = st.max_calls
    · right
      rw [if_pos hc]
      rfl
    · left
      rw [if_neg hc]
      rfl

/-- Witness for C5: a missing parameter name is rejected, a present one is
captured at its position, and a concrete call ends in one of the two
call-time outcomes. -/
theorem construction_validation_witness :
    ("z" ∉ ["x", "y"] ∧
      RateLimitedCallable.mk? ℕ "f" ["x", "y"] 2 1 (some "z") = .error ⟨"z"⟩) ∧
    ("y" ∈ ["x", "y"] ∧
      RateLimitedCallable.mk? ℕ "f" ["x", "y"] 2 1 (some "y") =
        .ok (RateLimitedCallable.fresh ℕ "f" ["x", "y"] 2 1 (some (1, "y")))) ∧
    (((RateLimitedCallable.fresh ℕ "f" [] 1 1 none).call [] [] 0 0).invokedWrapped = true ∨
      ((RateLimitedCallable.fresh ℕ "f" [] 1 1 none).call [] [] 0 0).isRateLimited = true) := by
  refine ⟨⟨by decide, (construction_validation ℕ "f" ["x", "y"] 2 1 "z").1 (by decide)⟩,
    ⟨by decide, ?_⟩,
    (construction_validation ℕ "f" [] 1 1 "x").2.2
      (RateLimitedCallable.fresh ℕ "f" [] 1 1 none) [] [] 0 0⟩
  have h := (construction_validation ℕ "f" ["x", "y"] 2 1 "y").2.1 (by decide)
  have hidx : List.indexOf "y" ["x", "y"] = 1 := by decide
  rw [hidx] at h
  exact h

/-- C6: session-key lookup order at call time — keyword arguments by name
first, then positional arguments when the captured index is in range, and
the sentinel "no session" key (`none`) when the argument was not supplied,
without crashing. -/
theorem session_key_lookup (V : Type) (index : ℕ) (name : String)
    (args : List V) (kwargs : List (String × V)) :
    (∀ v, kwargs.lookup name = some v →
      extractSession (some (index, name)) args kwargs = some v) ∧
    (∀ h : index < args.length, kwargs.lookup name = none →
      extractSession (some (index, name)) args kwargs = some (args.get ⟨index, h⟩)) ∧
    (kwargs.lookup name = none → args.length ≤ index →
      extractSession (some (index, name)) args kwargs = none) := by
  refine ⟨?_, ?_, ?_⟩
  · intro v hv
    simp [extractSession, hv]
  · intro h hk
    simp [extractSession, hk, h]
  · intro hk hlen
    simp [extractSession, hk, Nat.not_lt.mpr hlen]

/-- Witness for C6: a keyword hit, a positional hit and an absent argument,
each at concrete inputs. -/
theorem session_key_lookup_witness :
    (List.lookup "s" [("s", 7)] = some 7 ∧
      extractSession (some (1, "s")) [10, 20] [("s", 7)] = some 7) ∧
    (1 < List.length [10, 20] ∧ List.lookup "s" ([] : List (String × ℕ)) = none ∧
      extractSession (some (1, "s")) [10, 20] ([] : List (String × ℕ)) = some 20) ∧
    (List.lookup "s" ([] : List (String × ℕ)) = none ∧ List.length [(5 : ℕ)] ≤ 1 ∧
      extractSession (some (1, "s")) [5] ([] : List (String × ℕ)) = none) := by
  refine ⟨⟨by simp, (session_key_lookup ℕ 1 "s" [10, 20] [("s", 7)]).1 7 (by simp)⟩,
    ⟨by decide, by simp, (session_key_lookup ℕ 1 "s" [10, 20] []).2.1 (by decide) (by simp)⟩,
    ⟨by simp, by decide, (session_key_lookup ℕ 1 "s" [5] []).2.2 (by simp) (by decide)⟩⟩

/-- C10: a rejected call is not state-preserving — before the error is raised
the session's entry has already been replaced by its pruned sequence (expired
timestamps removed, and a first-seen key now maps to a pruned, possibly empty
list), while every other key is untouched. -/
theorem rejected_call_mutates (V : Type) [DecidableEq V] (st : RateLimitedCallable V)
    (args : List V) (kwargs : List (String × V)) (now1 now2 : Time)
    (e : RateLimitException) (st' : RateLimitedCallable V)
    (h : st.call args kwargs now1 now2 = .rateLimited e st') :
    st'.calls (sessionOf st args kwargs) = some (prunedSession st args kwargs now1) ∧
    ∀ k, k ≠ sessionOf st args kwargs → st'.calls k = st.calls k := by
  simp only [RateLimitedCallable.call] at h
  by_cases hc : (prune now1 st.per_seconds
      ((st.calls (extractSession st.session_arg args kwargs)).getD [])).length = st.max_calls
  · rw [if_pos hc] at h
    injection h with h1 h2
    subst h2
    constructor
    · simp [sessionOf, prunedSession]
    · intro k hk
      simp only [sessionOf] at hk
      simp [hk]
  · rw [if_neg hc] at h
    cases h

/-- A limiter with empty history that rejects its first call, to witness
`rejected_call_mutates` on a first-seen session key. -/
def L10 : RateLimitedCallable ℕ := ⟨"h", [], 0, 1, none, fun _ => none⟩

/-- The state `L10` leaves behind after that rejected call: the sentinel key
has gained an (empty) entry. -/
def L10' : RateLimitedCallable ℕ :=
  ⟨"h", [], 0, 1, none, fun k => if k = none then some [] else none⟩

/-- Witness for C10: the first-seen sentinel key gains a pruned, empty entry
in the table although the call is rejected; other keys are unchanged. -/
theorem rejected_call_mutates_witness :
    L10.call [] [] 0 0 = .rateLimited ⟨"h", 0, 1⟩ L10' ∧
    L10.calls none = none ∧
    L10'.calls none = some [] ∧
    L10'.calls (some 5) = L10.calls (some 5) := by
  have h := rejected_call_mutates ℕ L10 [] [] 0 0 ⟨"h", 0, 1⟩ L10' rfl
  exact ⟨rfl, rfl, h.1, h.2 (some 5) (by decide)⟩

/-- The admission verdict depends only on the configuration and on the
dictionary entry of the call's own session key. -/
lemma isRateLimited_congr (V : Type) [DecidableEq V]
    (stA stB : RateLimitedCallable V)
    (args : List V) (kwargs : List (String × V)) (m1 m2 : Time)
    (hs : stA.session_arg = stB.session_arg)
    (hp : stA.per_seconds = stB.per_seconds)
    (hm : stA.max_calls = stB.max_calls)
    (hc : stA.calls (extractSession stB.session_arg args kwargs) =
      stB.calls (extractSession stB.session_arg args kwargs)) :
    (stA.call args kwargs m1 m2).isRateLimited =
      (stB.call args kwargs m1 m2).isRateLimited := by
  simp only [RateLimitedCallable.call]
  rw [hs, hp, hm, hc]
  by_cases h : (prune m1 stB.per_seconds
      ((stB.calls (extractSession stB.session_arg args kwargs)).getD [])).length = stB.max_calls
  · rw [if_pos h, if_pos h]
    rfl
  · rw [if_neg h, if_neg h]
    rfl

/-- C7: distinct session keys are independent — a call never modifies another
key's timestamp sequence, and the admission verdict for a call in another
session is unchanged by it. -/
theorem session_isolation (V : Type) [DecidableEq V] (st : RateLimitedCallable V)
    (args : List V) (kwargs : List (String × V)) (now1 now2 : Time)
    (k : Option V) (hne : k ≠ sessionOf st args kwargs) :
    ((st.call args kwargs now1 now2).state).calls k = st.calls k ∧
    (∀ (args2 : List V) (kwargs2 : List (String × V)) (m1 m2 : Time),
      sessionOf st args2 kwargs2 = k →
      (((st.call args kwargs now1 now2).state).call args2 kwargs2 m1 m2).isRateLimited =
        (st.call args2 kwargs2 m1 m2).isRateLimited) := by
  simp only [sessionOf] at hne
  refine ⟨call_state_calls_ne st args kwargs now1 now2 k hne, ?_⟩
  intro args2 kwargs2 m1 m2 hk
  simp only [sessionOf] at hk
  have hcfg := call_state_config st args kwargs now1 now2
  apply isRateLimited_congr
  · exact hcfg.2.2.2.2
  · exact hcfg.2.2.2.1
  · exact hcfg.2.2.1
  · rw [hk]
    exact call_state_calls_ne st args kwargs now1 now2 k hne

/-- A session-partitioned limiter (session parameter "s" at position 0) used
to witness `session_isolation`. -/
def L7 : RateLimitedCallable ℕ := ⟨"f", ["s"], 1, 1, some (0, "s"), fun _ => none⟩

/-- Witness for C7: a call in session 0 leaves session 1's entry and
admission verdict unchanged. -/
theorem session_isolation_witness :
    ((some 1 : Option ℕ) ≠ sessionOf L7 [0] []) ∧
    ((L7.call [0] [] 0 0).state).calls (some 1) = L7.calls (some 1) ∧
    ((((L7.call [0] [] 0 0).state).call [1] [] 0 0).isRateLimited =
      (L7.call [1] [] 0 0).isRateLimited) := by
  have h := session_isolation ℕ L7 [0] [] 0 0 (some 1) (by decide)
  exact ⟨by decide, h.1, h.2 [1] [] 0 0 (by decide)⟩

/-- C8: once every timestamp of a saturated session is at least
`per_seconds` old, the next call is admitted and the session's sequence
afterwards is exactly the single new timestamp. -/
theorem window_expiry (V : Type) [DecidableEq V] (st : RateLimitedCallable V)
    (args : List V) (kwargs : List (String × V)) (l : List Time) (tlast now : Time)
    (hmc : 0 < st.max_calls)
    (hsat : st.calls (sessionOf st args kwargs) = some l)
    (hlen : l.length = st.max_calls)
    (hold : ∀ t ∈ l, t ≤ tlast)
    (hadv : tlast + st.per_seconds ≤ now) :
    st.call args kwargs now now =
      .ok { st with calls := fun k =>
          if k = sessionOf st args kwargs then some [now] else st.calls k } ∧
    (((st.call args kwargs now now).state).calls (sessionOf st args kwargs)) = some [now] := by
  have hpr : prune now st.per_seconds l = [] := by
    rw [prune, List.filter_eq_nil_iff]
    intro t ht
    have h1 := hold t ht
    simp only [decide_eq_true_eq]
    intro hcon
    linarith
  have e : st.call args kwargs now now =
      .ok { st with calls := fun k =>
          if k = sessionOf st args kwargs then some [now] else st.calls k } := by
    simp only [sessionOf] at hsat ⊢
    simp only [RateLimitedCallable.call, hsat, Option.getD_some, hpr]
    rw [if_neg]
    · simp
    · simp only [List.length_nil]
      omega
  refine ⟨e, ?_⟩
  rw [e]
  simp [CallOutcome.state, sessionOf]

/-- A saturated limiter (two timestamps at time 0, `max_calls = 2`,
window 1) used to witness `window_expiry` at time 1. -/
def L8 : RateLimitedCallable ℕ :=
  ⟨"f", [], 2, 1, none, fun k => if k = none then some [0, 0] else none⟩

/-- Witness for C8: after the clock advances a full window, the saturated
session admits the call and keeps exactly the new timestamp. -/
theorem window_expiry_witness :
    0 < L8.max_calls ∧
    L8.calls (sessionOf L8 [] []) = some [0, 0] ∧
    ((0 : ℚ) + L8.per_seconds ≤ 1) ∧
    (((L8.call [] [] 1 1).state).calls (sessionOf L8 [] [])) = some [1] := by
  have h := window_expiry ℕ L8 [] [] [0, 0] 0 1 (by decide) rfl (by decide) (by norm_num)
    (by show (0 : ℚ) + 1 ≤ 1; norm_num)
  exact ⟨by decide, rfl, by show (0 : ℚ) + 1 ≤ 1; norm_num, h.2⟩

/-- Pruning at the very moment all stored timestamps were taken removes
nothing, as long as the window is positive. -/
lemma prune_replicate_self (t : Time) (per : ℚ) (j : ℕ) (hW : 0 < per) :
    prune t per (List.replicate j t) = List.replicate j t := by
  rw [prune, List.filter_eq_self]
  intro a ha
  have ha' : a = t := List.eq_of_mem_replicate ha
  subst ha'
  simp only [decide_eq_true_eq, sub_self]
  exact hW

/-- Rapid-succession calls: starting with `j` same-instant timestamps in the
call's session and room for `n` more, all `n` calls are admitted and the
session ends with `j + n` timestamps. -/
lemma repeatCall_saturates (V : Type) [DecidableEq V] (args : List V)
    (kwargs : List (String × V)) (t : Time) :
    ∀ (n : ℕ) (st : RateLimitedCallable V) (j : ℕ),
      (st.calls (sessionOf st args kwargs)).getD [] = List.replicate j t →
      0 < st.per_seconds →
      j + n ≤ st.max_calls →
      ∃ st', repeatCall st args kwargs t n = some st' ∧
        st'.max_calls = st.max_calls ∧ st'.per_seconds = st.per_seconds ∧
        st'.session_arg = st.session_arg ∧
        (st'.calls (sessionOf st' args kwargs)).getD [] = List.replicate (j + n) t := by
  intro n
  induction n with
  | zero =>
      intro st j hj hW hle
      exact ⟨st, rfl, rfl, rfl, rfl, by simpa using hj⟩
  | succ n ih =>
      intro st j hj hW hle
      have hpr := prune_replicate_self t st.per_seconds j hW
      have hcall : st.call args kwargs t t =
          .ok { st with calls := fun k =>
              if k = sessionOf st args kwargs then some (List.replicate (j + 1) t)
              else st.calls k } := by
        simp only [sessionOf] at hj ⊢
        simp only [RateLimitedCallable.call, hj, hpr]
        rw [if_neg]
        · rw [List.replicate_succ']
        · simp only [List.length_replicate]
          omega
      obtain ⟨st', hrep, hm, hp, hs, hc⟩ := ih
        { st with calls := fun k =>
            if k = sessionOf st args kwargs then some (List.replicate (j + 1) t)
            else st.calls k }
        (j + 1) (by simp [sessionOf]) hW (by show j + 1 + n ≤ st.max_calls; omega)
      refine ⟨st', ?_, hm, hp, hs, ?_⟩
      · simp only [repeatCall]
        rw [hcall]
        exact hrep
      · rw [(by omega : j + 1 + n = j + (n + 1))] at hc
        exact hc

/-- C1: from an empty history with `max_calls = N > 0` and a positive window,
`N` rapid-succession calls in one session are all admitted, and the
`(N+1)`-th call at the same instant raises `RateLimitException`. -/
theorem window_admission (V : Type) [DecidableEq V] (fname : String) (params : List String)
    (N : ℕ) (W : ℚ) (sb : Option (ℕ × String))
    (args : List V) (kwargs : List (String × V)) (t : Time)
    (hN : 0 < N) (hW : 0 < W) :
    ∃ st', repeatCall (RateLimitedCallable.fresh V fname params N W sb) args kwargs t N =
        some st' ∧
      (st'.call args kwargs t t).isRateLimited = true := by
  obtain ⟨st', hrep, hm, hp, hs, hc⟩ := repeatCall_saturates V args kwargs t N
    (RateLimitedCallable.fresh V fname params N W sb) 0 rfl hW (by show 0 + N ≤ N; omega)
  refine ⟨st', hrep, ?_⟩
  have hc' : (st'.calls (sessionOf st' args kwargs)).getD [] = List.replicate N t := by
    simpa using hc
  have hpr := prune_replicate_self t st'.per_seconds N (by rw [hp]; exact hW)
  simp only [sessionOf] at hc'
  simp only [RateLimitedCallable.call, hc', hpr]
  rw [if_pos]
  · rfl
  · simp only [List.length_replicate]
    rw [hm]
    rfl

/-- Witness for C1: with `max_calls = 2` and window 1, two rapid calls are
admitted and the third raises. -/
theorem window_admission_witness :
    0 < 2 ∧ (0 : ℚ) < 1 ∧
    (∃ st', repeatCall (RateLimitedCallable.fresh ℕ "f" [] 2 1 none) [] [] 0 2 = some st' ∧
      (st'.call [] [] 0 0).isRateLimited = true) :=
  ⟨by decide, by norm_num, window_admission ℕ "f" [] 2 1 none [] [] 0 (by decide) (by norm_num)⟩

/-- One invocation preserves the length bound on every dictionary entry. -/
lemma length_le_after_call (V : Type) [DecidableEq V] (st : RateLimitedCallable V)
    (hinv : ∀ k l, st.calls k = some l → l.length ≤ st.max_calls)
    (args : List V) (kwargs : List (String × V)) (now1 now2 : Time)
    (k : Option V) (l : List Time)
    (hkl : ((st.call args kwargs now1 now2).state).calls k = some l) :
    l.length ≤ ((st.call args kwargs now1 now2).state).max_calls := by
  have hple : (prune now1 st.per_seconds
      ((st.calls (extractSession st.session_arg args kwargs)).getD [])).length ≤
      st.max_calls := by
    cases hx : st.calls (extractSession st.session_arg args kwargs) with
    | none => simp [hx, prune]
    | some l0 =>
        refine le_trans ?_ (hinv _ l0 hx)
        simp only [hx, Option.getD_some, prune]
        exact List.length_filter_le _ l0
  simp only [RateLimitedCallable.call] at hkl ⊢
  by_cases hc : (prune now1 st.per_seconds
      ((st.calls (extractSession st.session_arg args kwargs)).getD [])).length = st.max_calls
  · rw [if_pos hc] at hkl ⊢
    simp only [CallOutcome.state] at hkl ⊢
    by_cases hk : k = extractSession st.session_arg args kwargs
    · simp only [hk, if_pos] at hkl
      injection hkl with hkl
      rw [← hkl]
      exact le_of_eq hc
    · simp only [if_neg hk] at hkl
      exact hinv k l hkl
  · rw [if_neg hc] at hkl ⊢
    simp only [CallOutcome.state] at hkl ⊢
    by_cases hk : k = extractSession st.session_arg args kwargs
    · simp only [hk, if_pos] at hkl
      injection hkl with hkl
      have hlt : (prune now1 st.per_seconds
          ((st.calls (extractSession st.session_arg args kwargs)).getD [])).length <
          st.max_calls := lt_of_le_of_ne hple hc
      rw [← hkl]
      simp only [List.length_append, List.length_cons, List.length_nil]
      omega
    · simp only [if_neg hk] at hkl
      exact hinv k l hkl

/-- C4: for every limiter state reachable from an empty call history, every
dictionary entry's length stays at most `max_calls` after each admission
decision, and immediately after a prune every surviving timestamp of the
session is within `per_seconds` of the pruning time. -/
theorem invariant_preserved (V : Type) [DecidableEq V] (fname : String)
    (params : List String) (max_calls : ℕ) (per_seconds : ℚ)
    (sb : Option (ℕ × String)) (st : RateLimitedCallable V)
    (h : Reach (RateLimitedCallable.fresh V fname params max_calls per_seconds sb) st) :
    (∀ k l, st.calls k = some l → l.length ≤ st.max_calls) ∧
    (∀ (args : List V) (kwargs : List (String × V)) (now1 t : Time),
      t ∈ prunedSession st args kwargs now1 → now1 - t < st.per_seconds) := by
  constructor
  · induction h with
    | refl =>
        intro k l hkl
        simp [RateLimitedCallable.fresh] at hkl
    | step args kwargs now1 now2 hr ih =>
        intro k l hkl
        exact length_le_after_call V _ ih args kwargs now1 now2 k l hkl
  · intro args kwargs now1 t ht
    simp only [prunedSession, prune, List.mem_filter, decide_eq_true_eq] at ht
    exact ht.2

/-- A freshly constructed limiter (`max_calls = 2`, window 2) used to witness
`invariant_preserved`. -/
def F4 : RateLimitedCallable ℕ := RateLimitedCallable.fresh ℕ "f" [] 2 2 none

/-- The reachable state after one admitted call on `F4` at time 0. -/
def S4 : RateLimitedCallable ℕ := (F4.call [] [] 0 0).state

/-- Witness for C4 at the reachable state `S4`: its single entry respects the
length bound, and a pruned timestamp is within the window of the prune
time. -/
theorem invariant_preserved_witness :
    S4.calls none = some [0] ∧
    List.length [(0 : ℚ)] ≤ S4.max_calls ∧
    (0 : ℚ) ∈ prunedSession S4 [] [] 1 ∧
    (1 : ℚ) - 0 < S4.per_seconds := by
  have h := invariant_preserved ℕ "f" [] 2 2 none S4 (Reach.step [] [] 0 0 Reach.refl)
  have hmem : (0 : ℚ) ∈ prunedSession S4 [] [] 1 := by
    have hps : prunedSession S4 [] [] 1 = [0] := by
      simp [prunedSession, prune, sessionOf, extractSession, S4, F4,
        RateLimitedCallable.fresh, RateLimitedCallable.call, CallOutcome.state]
    rw [hps]
    simp
  exact ⟨rfl, h.1 none [0] rfl, hmem, h.2 [] [] 1 0 hmem⟩
